import Mathlib

/-
Verification of the grvt-transfer control engine.

All monetary values and position sizes in the source are arbitrary-precision
decimal values (Python `Decimal`); they are modeled here as exact rationals
(ℚ).  Stateful service calls (HTTP round trips) are modeled by passing the
observed responses in as explicit arguments; sleeps and wall-clock reads are
modeled by recording the requested durations / timestamps as data.
-/

namespace GrvtTransfer

/-! ### unwind/services.py — trigger and recovery predicates -/

/-- `UnwindService.should_trigger` (unwind/services.py lines 121-141).
Margin usage is `maint_margin / equity * 100`; trigger when it is at least
`trigger_pct`, rejecting non-positive equity or margin and usage ≥ 100%. -/
def shouldTrigger (equity maintMargin triggerPct : ℚ) : Bool :=
  if equity ≤ 0 then false
  else if maintMargin ≤ 0 then false
  else
    let marginPct := maintMargin / equity * 100
    if marginPct ≥ 100 then false
    else decide (marginPct ≥ triggerPct)

/-- `UnwindService.is_recovered` (unwind/services.py lines 143-154). -/
def isRecovered (equity maintMargin recoveryPct : ℚ) : Bool :=
  if equity ≤ 0 then true
  else if maintMargin ≤ 0 then true
  else decide (maintMargin / equity * 100 < recoveryPct)

/-! ### unwind/services.py — per-iteration unwind ratio -/

/-- Margin percentage used in `calc_unwind_ratio`:
`(mm / eq) * 100 if eq > 0 else 0` (unwind/services.py lines 203-204). -/
def marginPctOrZero (equity maintMargin : ℚ) : ℚ :=
  if 0 < equity then maintMargin / equity * 100 else 0

/-- `UnwindService.calc_unwind_ratio` (unwind/services.py lines 197-214). -/
def calcUnwindRatio (eq1 mm1 eq2 mm2 recoveryPct : ℚ) (iterations : ℤ) : ℚ :=
  let iters : ℚ := ((max 1 iterations : ℤ) : ℚ)
  let pct1 := marginPctOrZero eq1 mm1
  let pct2 := marginPctOrZero eq2 mm2
  let maxPct := max pct1 pct2
  if maxPct ≤ 0 then 0
  else
    let excess := maxPct - recoveryPct
    if excess ≤ 0 then 0
    else
      let r := excess / (maxPct * iters)
      if r ≤ 0 then 0 else min r 1

/-- `target_iters = min(max_iterations, 5) if max_iterations > 0 else 5`
(unwind/services.py line 774); `check_and_unwind` fixes `max_iterations = 999`
(line 633). -/
def targetIters (maxIterations : ℤ) : ℤ :=
  if 0 < maxIterations then min maxIterations 5 else 5

/-- The per-iteration ratio actually applied to every matched position in
`check_and_unwind` (unwind/services.py lines 774-777): the computed ratio
capped by `unwind_pct/100` when `unwind_pct > 0`, and by 1 otherwise. -/
def appliedUnwindRatio (eq1 mm1 eq2 mm2 recoveryPct unwindPct : ℚ) : ℚ :=
  let computed := calcUnwindRatio eq1 mm1 eq2 mm2 recoveryPct (targetIters 999)
  let maxRatio := if 0 < unwindPct then unwindPct / 100 else 1
  min computed maxRatio

/-- The per-iteration ratio as the specification's formula states it:
`min(max(0, min(1, excess / (pct_max · target_iters))), unwind_pct/100)`
with `target_iters = 5`.  Written from the spec's words, for comparison
with `appliedUnwindRatio` (which is written from the source). -/
def claimedUnwindRatio (eq1 mm1 eq2 mm2 recoveryPct unwindPct : ℚ) : ℚ :=
  let pct1 := marginPctOrZero eq1 mm1
  let pct2 := marginPctOrZero eq2 mm2
  let pctMax := max pct1 pct2
  let excess := pctMax - recoveryPct
  min (max 0 (min 1 (excess / (pctMax * 5)))) (unwindPct / 100)

/-! ### unwind/services.py — reduce-order size computation -/

/-- `UnwindService._round_down_to_step` (unwind/services.py lines 109-114):
round `value` down to a multiple of `step`; a non-positive step returns the
value unchanged.  The source's final `quantize` only reformats the decimal
exponent and does not change the value. -/
def roundDownToStep (value step : ℚ) : ℚ :=
  if step ≤ 0 then value else ⌊value / step⌋ * step

/-- The effective size step of `_build_order_fixed_size`
(unwind/services.py lines 544-551): `1/10^base_decimals`, coarsened to
`min_size` when `min_size > 0` is larger. -/
def effectiveSizeStep (baseDecimals : ℤ) (minSizeRaw : ℚ) : ℚ :=
  if 0 < minSizeRaw then max (1 / (10 : ℚ) ^ baseDecimals) minSizeRaw
  else 1 / (10 : ℚ) ^ baseDecimals

/-- The effective minimum size of `_build_order_fixed_size`
(unwind/services.py lines 547-551): the instrument's `min_size` when
positive, else the base size step. -/
def effectiveMinSize (baseDecimals : ℤ) (minSizeRaw : ℚ) : ℚ :=
  if 0 < minSizeRaw then minSizeRaw else 1 / (10 : ℚ) ^ baseDecimals

/-- The reduce-size clamping of `_build_order_fixed_size`
(unwind/services.py lines 553-565): round the requested size down to the
step, cap it at the rounded-down absolute position size, and lift it to the
minimum size when possible; `none` when the position is too small. -/
def finalReduceSize (currentSize fixedSize : ℚ) (baseDecimals : ℤ)
    (minSizeRaw : ℚ) : Option ℚ :=
  let sizeStep := effectiveSizeStep baseDecimals minSizeRaw
  let minSize := effectiveMinSize baseDecimals minSizeRaw
  let maxReduceSize := roundDownToStep |currentSize| sizeStep
  let reduceClamped := min (roundDownToStep fixedSize sizeStep) maxReduceSize
  if reduceClamped < minSize then
    if minSize ≤ maxReduceSize then some (roundDownToStep minSize sizeStep)
    else none
  else some reduceClamped

/-- The order leg produced by `_build_order_fixed_size`: the final size and
the direction (`is_buying = current_size < 0`, unwind/services.py line 523). -/
structure OrderLegModel where
  size : ℚ
  isBuying : Bool
  deriving Repr, DecidableEq

/-- `UnwindService._build_order_fixed_size` (unwind/services.py lines
517-605), restricted to its size computation and final size checks; the
EIP-712 signing, nonce and ids are not modeled.  `contract_size =
int(...to_integral_value(ROUND_DOWN))` truncates toward zero, which agrees
with `⌊·⌋` on the positive sizes reaching that line (r ≤ 0 already
returned `none`). -/
def buildOrderFixedSize (currentSize fixedSize : ℚ) (baseDecimals : ℤ)
    (minSizeRaw : ℚ) : Option OrderLegModel :=
  let sizeMultiplier : ℚ := (10 : ℚ) ^ baseDecimals
  match finalReduceSize currentSize fixedSize baseDecimals minSizeRaw with
  | none => none
  | some r =>
    if r ≤ 0 then none
    else if ⌊r * sizeMultiplier⌋ ≤ 0 then none
    else some ⟨r, decide (currentSize < 0)⟩

/-- `UnwindService.execute_unwind_fixed_size` (unwind/services.py lines
451-515) issues the HTTP order request iff it is not a dry run and
`_build_order_fixed_size` produced a payload. -/
def unwindOrderPlaced (currentSize fixedSize : ℚ) (baseDecimals : ℤ)
    (minSizeRaw : ℚ) (dryRun : Bool) : Bool :=
  if dryRun then false
  else (buildOrderFixedSize currentSize fixedSize baseDecimals minSizeRaw).isSome

/-! ### rebalance/services.py — TransferService.try_transfer -/

/-- One attempt's outcome of `client.transfer_v1`: a transport exception, a
`GrvtError` business response carrying optional `code` and `status` fields,
or a successful response whose body carries the `ack` flag. -/
inductive AttemptOutcome where
  | transportExn
  | businessErr (code : Option ℤ) (status : Option ℤ)
  | success (ack : Bool)
  deriving Repr, DecidableEq

/-- Whether `try_transfer` retries this outcome when attempts remain
(rebalance/services.py lines 172-177 and 183-191): any transport exception,
or a business error with `code == 1006` or `status == 429`. -/
def retryableOutcome : AttemptOutcome → Bool
  | .transportExn => true
  | .businessErr code status =>
      decide (code = some 1006) || decide (status = some 429)
  | .success _ => false

def isSuccessOutcome : AttemptOutcome → Bool
  | .success _ => true
  | _ => false

/-- The `ack` flag inside a hop result (`info[key]["result"]["ack"]`,
utils.py lines 43-47); `false` when absent. -/
def ackOf : AttemptOutcome → Bool
  | .success a => a
  | _ => false

/-- Result of `try_transfer`: the returned boolean, the final attempt's
outcome (the success body, or the terminal error detail), the number of
attempts made, and the list of backoff sleeps (in ms) performed. -/
structure TryTransferResult where
  ok : Bool
  final : AttemptOutcome
  attempts : ℕ
  sleeps : List ℕ
  deriving Repr, DecidableEq

/-- The retry loop of `try_transfer` (rebalance/services.py lines 164-197).
`outs n` is the outcome the exchange gives attempt `n` (0-based);
`remaining = retries - attempt` counts the retries still allowed;
`backoff * 3 / 2` in ℕ equals `int(backoff_ms * 1.5)`. -/
def tryTransferGo (outs : ℕ → AttemptOutcome) (attempt backoff : ℕ) :
    ℕ → TryTransferResult
  | 0 => ⟨isSuccessOutcome (outs attempt), outs attempt, attempt + 1, []⟩
  | remaining + 1 =>
    match outs attempt with
    | .success a => ⟨true, .success a, attempt + 1, []⟩
    | .transportExn =>
      let r := tryTransferGo outs (attempt + 1) (backoff * 3 / 2) remaining
      ⟨r.ok, r.final, r.attempts, backoff :: r.sleeps⟩
    | .businessErr code status =>
      if retryableOutcome (.businessErr code status) then
        let r := tryTransferGo outs (attempt + 1) (backoff * 3 / 2) remaining
        ⟨r.ok, r.final, r.attempts, backoff :: r.sleeps⟩
      else ⟨false, .businessErr code status, attempt + 1, []⟩

/-- `TransferService.try_transfer`; the defaults are `retries=2`,
`backoff_ms=1500`. -/
def tryTransfer (outs : ℕ → AttemptOutcome) (retries backoff : ℕ) :
    TryTransferResult :=
  tryTransferGo outs 0 backoff retries

/-- The backoff sleeps performed by `n` consecutive retries starting from
`backoff` ms: each retry sleeps the current backoff, then multiplies it by
1.5 (`int(b * 1.5) = b * 3 / 2`). -/
def sleepsList (backoff : ℕ) : ℕ → List ℕ
  | 0 => []
  | n + 1 => backoff :: sleepsList (backoff * 3 / 2) n

/-! ### flow.py — TransferFlow.execute -/

/-- The info returned by `TransferFlow.execute`: on success the three hop
results keyed `internal_tx`, `funding_to_funding_tx`, `deposit_tx` (each
carrying its `ack`); on failure, the failing hop's error detail. -/
inductive FlowInfo where
  | complete (internalAck fundingToFundingAck depositAck : Bool)
  | hopError (hop : ℕ) (detail : AttemptOutcome)
  deriving Repr, DecidableEq

structure FlowResult where
  ok : Bool
  info : FlowInfo
  hopsAttempted : ℕ
  deriving Repr, DecidableEq

/-- `TransferFlow.execute` (flow.py lines 20-104): three transfer hops in
order — internal (source trading → source funding), funding-to-funding,
deposit (destination funding → destination trading) — each a `try_transfer`
with the default retries; a failed hop returns that hop's error info at once,
attempting no later hop and rolling nothing back.  `outs1..outs3` are the
exchange's responses to the attempts of hops 1..3. -/
def transferFlowExecute (outs1 outs2 outs3 : ℕ → AttemptOutcome) : FlowResult :=
  let r1 := tryTransfer outs1 2 1500
  if r1.ok then
    let r2 := tryTransfer outs2 2 1500
    if r2.ok then
      let r3 := tryTransfer outs3 2 1500
      if r3.ok then
        ⟨true, .complete (ackOf r1.final) (ackOf r2.final) (ackOf r3.final), 3⟩
      else ⟨false, .hopError 3 r3.final, 3⟩
    else ⟨false, .hopError 2 r2.final, 2⟩
  else ⟨false, .hopError 1 r1.final, 1⟩

/-- `TxUtil.success info key` (utils.py lines 43-47) for the three hop keys
(1 = internal_tx, 2 = funding_to_funding_tx, 3 = deposit_tx); a missing key
yields `false`. -/
def txSuccess (info : FlowInfo) (key : ℕ) : Bool :=
  match info with
  | .complete a1 a2 a3 =>
    if key = 1 then a1 else if key = 2 then a2 else if key = 3 then a3 else false
  | .hopError _ _ => false

/-- `success_all` as computed in rebalance/services.py line 350. -/
def successAll (info : FlowInfo) : Bool :=
  txSuccess info 1 && txSuccess info 2 && txSuccess info 3

/-! ### rebalance/services.py — rebalance_once decision logic -/

inductive RebalanceAction where
  | noop
  | blocked_zero_equity
  | blocked_mm
  | blocked_avail
  | executed
  | failed
  deriving Repr, DecidableEq

/-- Result of one `rebalance_once` decision: the action, the transfer amount
(`0` when no transfer was attempted), which account was chosen as source
(`srcIsA = (eq1 - eq2 > 0)`; meaningless for noop and the zero-equity
guard), and whether the asymmetric zero-equity warning was dispatched. -/
structure RebalanceResult where
  action : RebalanceAction
  amount : ℚ
  srcIsA : Bool
  zeroEquityWarned : Bool
  deriving Repr, DecidableEq

/-- rebalance/services.py lines 293-376: the decision logic of
`rebalance_once` after the zero-equity guard.  `flowOk` is the boolean
returned by `TransferFlow.execute`. -/
def rebalanceCore (eq1 mm1 avail1 eq2 mm2 avail2 trigger : ℚ)
    (flowOk : Bool) : RebalanceResult :=
  let delta := eq1 - eq2
  if |delta| ≤ trigger then ⟨.noop, 0, false, false⟩
  else
    let srcIsA := decide (0 < delta)
    let srcEq := if 0 < delta then eq1 else eq2
    let srcMm := if 0 < delta then mm1 else mm2
    let srcAvail := if 0 < delta then avail1 else avail2
    let needed := |delta| / 2
    let maxByAvail := srcAvail
    let maxByMm := srcEq - srcMm * 2
    if maxByMm ≤ 0 then ⟨.blocked_mm, 0, srcIsA, false⟩
    else
      let transferAmt := min needed (min maxByAvail maxByMm)
      if transferAmt ≤ 0 then ⟨.blocked_avail, 0, srcIsA, false⟩
      else ⟨if flowOk then .executed else .failed, transferAmt, srcIsA, false⟩

/-- The per-tick observation consumed by the zero-equity guard: equity,
maintenance margin and available balance of both trading sub-accounts. -/
structure RebalanceObs where
  eq1 : ℚ
  mm1 : ℚ
  avail1 : ℚ
  eq2 : ℚ
  mm2 : ℚ
  avail2 : ℚ
  deriving Repr, DecidableEq

/-- rebalance/services.py lines 266-376: `rebalance_once` from the
zero-equity guard on.  `retryEq1`, `retryEq2` are the equities observed by
the re-read after the 3-second sleep (the re-read keeps the original margins
and balances, lines 271-272); the sweep, alerting and unwind steps preceding
the guard only produce the observation and are not modeled. -/
def rebalanceOnce (o : RebalanceObs) (retryEq1 retryEq2 trigger : ℚ)
    (flowOk : Bool) : RebalanceResult :=
  if o.eq1 = 0 ∨ o.eq2 = 0 then
    if retryEq1 = 0 ∨ retryEq2 = 0 then
      ⟨.blocked_zero_equity, 0, false, decide ¬(retryEq1 = 0 ∧ retryEq2 = 0)⟩
    else rebalanceCore retryEq1 o.mm1 o.avail1 retryEq2 o.mm2 o.avail2 trigger flowOk
  else rebalanceCore o.eq1 o.mm1 o.avail1 o.eq2 o.mm2 o.avail2 trigger flowOk

/-! ### state.py — unwind progress record -/

/-- The `_unwind_progress` dict (state.py lines 10 and 36-57).  The
formatted-text fields (`pct_a`, `pct_b`, `trigger_pct`, `recovery_pct` hold
`str(...)` values) are modeled over an arbitrary type `T`; a key that was
never written is `none`. -/
structure UnwindProgress (T : Type) where
  inProgress : Bool
  iteration : Option ℤ
  pctA : Option T
  pctB : Option T
  triggerPct : Option T
  recoveryPct : Option T
  updatedTs : Option ℚ
  deriving Repr, DecidableEq, Inhabited

/-- `state.set_unwind_progress` (state.py lines 36-57): `in_progress` is
always stored, each optional argument overwrites its key only when it is not
None, and `updated_ts` is refreshed to the current time. -/
def setUnwindProgress {T : Type} (st : UnwindProgress T) (inProgress : Bool)
    (iteration : Option ℤ) (pctA pctB triggerPct recoveryPct : Option T)
    (now : ℚ) : UnwindProgress T :=
  { inProgress := inProgress
    iteration := match iteration with | none => st.iteration | some v => some v
    pctA := match pctA with | none => st.pctA | some v => some v
    pctB := match pctB with | none => st.pctB | some v => some v
    triggerPct := match triggerPct with | none => st.triggerPct | some v => some v
    recoveryPct := match recoveryPct with | none => st.recoveryPct | some v => some v
    updatedTs := some now }

/-- A small heap of dict cells, for the copy semantics of
`state.get_unwind_progress` (state.py lines 60-62): `dict(_unwind_progress)`
allocates a fresh cell holding a copy of the stored record and returns its
address. -/
def getUnwindProgressCopy {T : Type} [Inhabited T]
    (cells : List (UnwindProgress T)) (storeAddr : ℕ) :
    List (UnwindProgress T) × ℕ :=
  (cells ++ [cells.getD storeAddr default], cells.length)

/-- In-place mutation of the dict stored at `addr` (a reader writing into
the dict that `get_unwind_progress` returned). -/
def writeCell {T : Type} (cells : List (UnwindProgress T)) (addr : ℕ)
    (v : UnwindProgress T) : List (UnwindProgress T) :=
  cells.set addr v

end GrvtTransfer

namespace GrvtTransfer

/-! ### Facts about rounding down to a step -/

theorem roundDownToStep_le_self (v s : ℚ) (hs : 0 < s) :
    roundDownToStep v s ≤ v := by
  rw [roundDownToStep, if_neg (not_le.mpr hs)]
  calc (⌊v / s⌋ : ℚ) * s ≤ v / s * s :=
        mul_le_mul_of_nonneg_right (Int.floor_le _) hs.le
    _ = v := div_mul_cancel₀ v hs.ne'

theorem roundDownToStep_isMultiple (v s : ℚ) (hs : 0 < s) :
    ∃ k : ℤ, roundDownToStep v s = k * s :=
  ⟨⌊v / s⌋, by rw [roundDownToStep, if_neg (not_le.mpr hs)]⟩

theorem effectiveSizeStep_pos (bd : ℤ) (ms : ℚ) : 0 < effectiveSizeStep bd ms := by
  have hb : 0 < 1 / (10 : ℚ) ^ bd := by positivity
  rw [effectiveSizeStep]
  split_ifs with h
  · exact lt_of_lt_of_le hb (le_max_left _ _)
  · exact hb

theorem effectiveMinSize_pos (bd : ℤ) (ms : ℚ) : 0 < effectiveMinSize bd ms := by
  have hb : 0 < 1 / (10 : ℚ) ^ bd := by positivity
  rw [effectiveMinSize]
  split_ifs with h
  · exact h
  · exact hb

theorem effectiveMinSize_le_step (bd : ℤ) (ms : ℚ) :
    effectiveMinSize bd ms ≤ effectiveSizeStep bd ms := by
  rw [effectiveMinSize, effectiveSizeStep]
  split_ifs with h
  · exact le_max_right _ _
  · exact le_rfl

theorem minSizeRaw_le_effectiveMinSize (bd : ℤ) (ms : ℚ) :
    ms ≤ effectiveMinSize bd ms := by
  rw [effectiveMinSize]
  split_ifs with h
  · exact le_rfl
  · exact le_trans (not_lt.mp h) (by positivity)

theorem roundDownToStep_nonneg (v s : ℚ) (hs : 0 < s) (hv : 0 ≤ v) :
    0 ≤ roundDownToStep v s := by
  rw [roundDownToStep, if_neg (not_le.mpr hs)]
  have hf : (0 : ℤ) ≤ ⌊v / s⌋ := Int.floor_nonneg.mpr (div_nonneg hv hs.le)
  exact mul_nonneg (by exact_mod_cast hf) hs.le

/-- Every size that `finalReduceSize` produces is a multiple of the effective
step, bounded by the rounded-down absolute position size, and either at least
the effective minimum size or non-positive (the latter being rejected by the
caller's final checks). -/
theorem finalReduceSize_characterize (cs fs : ℚ) (bd : ℤ) (ms : ℚ) (r : ℚ)
    (h : finalReduceSize cs fs bd ms = some r) :
    (∃ k : ℤ, r = k * effectiveSizeStep bd ms) ∧
    r ≤ roundDownToStep |cs| (effectiveSizeStep bd ms) ∧
    (effectiveMinSize bd ms ≤ r ∨ r ≤ 0) := by
  have hstep : 0 < effectiveSizeStep bd ms := effectiveSizeStep_pos bd ms
  have hmn : 0 < effectiveMinSize bd ms := effectiveMinSize_pos bd ms
  have hmnle : effectiveMinSize bd ms ≤ effectiveSizeStep bd ms :=
    effectiveMinSize_le_step bd ms
  have hmx : 0 ≤ roundDownToStep |cs| (effectiveSizeStep bd ms) :=
    roundDownToStep_nonneg _ _ hstep (abs_nonneg cs)
  unfold finalReduceSize at h
  dsimp only at h
  by_cases hb :
      min (roundDownToStep fs (effectiveSizeStep bd ms))
        (roundDownToStep |cs| (effectiveSizeStep bd ms)) < effectiveMinSize bd ms
  · rw [if_pos hb] at h
    by_cases hle :
        effectiveMinSize bd ms ≤ roundDownToStep |cs| (effectiveSizeStep bd ms)
    · rw [if_pos hle] at h
      have hr : r = roundDownToStep (effectiveMinSize bd ms) (effectiveSizeStep bd ms) :=
        (Option.some_injective _ h).symm
      have hrds : roundDownToStep (effectiveMinSize bd ms) (effectiveSizeStep bd ms) =
          ⌊effectiveMinSize bd ms / effectiveSizeStep bd ms⌋ * effectiveSizeStep bd ms := by
        rw [roundDownToStep, if_neg (not_le.mpr hstep)]
      have hq1 : effectiveMinSize bd ms / effectiveSizeStep bd ms ≤ 1 :=
        (div_le_one hstep).mpr hmnle
      have hq0 : 0 < effectiveMinSize bd ms / effectiveSizeStep bd ms :=
        div_pos hmn hstep
      have hf0 : (0 : ℤ) ≤ ⌊effectiveMinSize bd ms / effectiveSizeStep bd ms⌋ :=
        Int.floor_nonneg.mpr hq0.le
      have hf1 : ⌊effectiveMinSize bd ms / effectiveSizeStep bd ms⌋ ≤ 1 := by
        calc ⌊effectiveMinSize bd ms / effectiveSizeStep bd ms⌋ ≤ ⌊(1:ℚ)⌋ :=
              Int.floor_le_floor hq1
          _ = 1 := Int.floor_one
      have hcases : ⌊effectiveMinSize bd ms / effectiveSizeStep bd ms⌋ = 0 ∨
          ⌊effectiveMinSize bd ms / effectiveSizeStep bd ms⌋ = 1 := by omega
      rcases hcases with hz | ho
      · have hr0 : r = 0 := by rw [hr, hrds, hz]; ring
        exact ⟨⟨0, by rw [hr0]; ring⟩, by rw [hr0]; exact hmx, Or.inr hr0.le⟩
      · have hstep_le : effectiveSizeStep bd ms ≤ effectiveMinSize bd ms := by
          have h1 : (1 : ℚ) ≤ effectiveMinSize bd ms / effectiveSizeStep bd ms := by
            exact_mod_cast Int.le_floor.mp ho.ge
          exact (one_le_div hstep).mp h1
        have hmneq : effectiveMinSize bd ms = effectiveSizeStep bd ms :=
          le_antisymm hmnle hstep_le
        have hrmn : r = effectiveMinSize bd ms := by
          rw [hr, hrds, ho, Int.cast_one, one_mul, hmneq]
        exact ⟨⟨1, by rw [hrmn, hmneq, Int.cast_one, one_mul]⟩, by rw [hrmn]; exact hle,
          Or.inl hrmn.ge⟩
    · rw [if_neg hle] at h
      cases h
  · rw [if_neg hb] at h
    have hr : r = min (roundDownToStep fs (effectiveSizeStep bd ms))
        (roundDownToStep |cs| (effectiveSizeStep bd ms)) :=
      (Option.some_injective _ h).symm
    refine ⟨?_, by rw [hr]; exact min_le_right _ _, Or.inl ?_⟩
    · rcases min_cases (roundDownToStep fs (effectiveSizeStep bd ms))
        (roundDownToStep |cs| (effectiveSizeStep bd ms)) with ⟨he, -⟩ | ⟨he, -⟩
      · rw [hr, he]
        exact roundDownToStep_isMultiple _ _ hstep
      · rw [hr, he]
        exact roundDownToStep_isMultiple _ _ hstep
    · rw [hr]
      exact not_lt.mp hb

/-! ### C3 -/

/-- C3: `should_trigger eq mm tp` holds iff `eq > 0`, `mm > 0`,
`(mm/eq)·100 < 100` and `(mm/eq)·100 ≥ tp`; `is_recovered eq mm rp` holds iff
`eq ≤ 0` or `mm ≤ 0` or `(mm/eq)·100 < rp`; and whenever `rp ≤ tp` the two
predicates are mutually exclusive. -/
theorem c3_trigger_recovery_exclusive (eq mm tp rp : ℚ) :
    (shouldTrigger eq mm tp = true ↔
      0 < eq ∧ 0 < mm ∧ mm / eq * 100 < 100 ∧ tp ≤ mm / eq * 100) ∧
    (isRecovered eq mm rp = true ↔
      eq ≤ 0 ∨ mm ≤ 0 ∨ mm / eq * 100 < rp) ∧
    (rp ≤ tp →
      (shouldTrigger eq mm tp = true → isRecovered eq mm rp = false) ∧
      (isRecovered eq mm rp = true → shouldTrigger eq mm tp = false)) := by
  have htrig : shouldTrigger eq mm tp = true ↔
      0 < eq ∧ 0 < mm ∧ mm / eq * 100 < 100 ∧ tp ≤ mm / eq * 100 := by
    unfold shouldTrigger
    split_ifs with h1 h2
    · simp only [Bool.false_eq_true, false_iff, not_and]
      intro he; linarith
    · simp only [Bool.false_eq_true, false_iff, not_and]
      intro he hm; linarith
    · dsimp only
      split_ifs with h3
      · simp only [Bool.false_eq_true, false_iff, not_and]
        intro he hm hlt; exfalso
        rw [ge_iff_le] at h3; linarith
      · simp only [decide_eq_true_eq, ge_iff_le]
        constructor
        · intro h
          exact ⟨not_le.mp h1, not_le.mp h2, not_le.mp h3, h⟩
        · exact fun h => h.2.2.2
  have hrec : isRecovered eq mm rp = true ↔
      eq ≤ 0 ∨ mm ≤ 0 ∨ mm / eq * 100 < rp := by
    unfold isRecovered
    split_ifs with h1 h2
    · simp [h1]
    · simp [h2]
    · simp only [decide_eq_true_eq]
      constructor
      · exact fun h => Or.inr (Or.inr h)
      · intro h
        rcases h with h | h | h
        · exact absurd h h1
        · exact absurd h h2
        · exact h
  refine ⟨htrig, hrec, fun hle => ⟨?_, ?_⟩⟩
  · intro ht
    rcases htrig.mp ht with ⟨he, hm, _, htp⟩
    cases hb : isRecovered eq mm rp with
    | false => rfl
    | true =>
      exfalso
      rcases hrec.mp hb with h' | h' | h' <;> linarith
  · intro hr
    cases hb : shouldTrigger eq mm tp with
    | false => rfl
    | true =>
      exfalso
      rcases htrig.mp hb with ⟨he, hm, _, htp⟩
      rcases hrec.mp hr with h' | h' | h' <;> linarith

/-- C3 witness: at `eq = 1000`, `mm = 650`, `trigger_pct = 60`,
`recovery_pct = 40`, the trigger fires and recovery does not. -/
theorem c3_trigger_recovery_exclusive_witness :
    shouldTrigger 1000 650 60 = true ∧ isRecovered 1000 650 40 = false := by
  have h := c3_trigger_recovery_exclusive 1000 650 60 40
  have ht : shouldTrigger 1000 650 60 = true := by
    apply h.1.mpr
    norm_num
  exact ⟨ht, (h.2.2 (by norm_num)).1 ht⟩

/-! ### C6 -/

/-- C6 counterexample: the claim's formula caps the ratio at `unwind_pct/100`
unconditionally, but the code uses cap 1 when `unwind_pct ≤ 0`
(unwind/services.py line 776): at `unwind_pct = 0` the code applies `1/15`
while the claim's formula yields `0`.  Moreover when `pct_max < 0` the code
returns `0` (line 206) while the claim's formula can be positive. -/
theorem c6_unwind_ratio_counterexample :
    (appliedUnwindRatio 100 60 100 10 40 0 = 1/15 ∧
     claimedUnwindRatio 100 60 100 10 40 0 = 0 ∧ (1/15 : ℚ) ≠ 0) ∧
    (appliedUnwindRatio 100 (-10) 100 (-20) 10 100 = 0 ∧
     claimedUnwindRatio 100 (-10) 100 (-20) 10 100 = 2/5) := by
  norm_num [appliedUnwindRatio, calcUnwindRatio, claimedUnwindRatio,
    marginPctOrZero, targetIters, min_def, max_def]

/-- C6 amended: in every unwind iteration the applied per-position order ratio
equals `min(r0, cap)` where `r0 = max(0, min(1, (pct_max − recovery_pct) /
(pct_max · 5)))` when `pct_max > 0` and `r0 = 0` when `pct_max ≤ 0`, and
`cap = unwind_pct/100` when `unwind_pct > 0` and `cap = 1` otherwise
(`target_iters = min(999, 5) = 5`); in particular whenever `unwind_pct > 0`
the applied ratio never exceeds `unwind_pct/100`. -/
theorem c6_unwind_ratio_amended (eq1 mm1 eq2 mm2 rp up : ℚ) :
    appliedUnwindRatio eq1 mm1 eq2 mm2 rp up =
      min (if max (marginPctOrZero eq1 mm1) (marginPctOrZero eq2 mm2) ≤ 0 then 0
           else max 0 (min 1
             ((max (marginPctOrZero eq1 mm1) (marginPctOrZero eq2 mm2) - rp) /
              (max (marginPctOrZero eq1 mm1) (marginPctOrZero eq2 mm2) * 5))))
          (if 0 < up then up / 100 else 1) ∧
    (0 < up → appliedUnwindRatio eq1 mm1 eq2 mm2 rp up ≤ up / 100) := by
  set p := max (marginPctOrZero eq1 mm1) (marginPctOrZero eq2 mm2) with hp
  have ht : targetIters 999 = 5 := by norm_num [targetIters]
  have hcalc : calcUnwindRatio eq1 mm1 eq2 mm2 rp (targetIters 999) =
      if p ≤ 0 then 0 else max 0 (min 1 ((p - rp) / (p * 5))) := by
    rw [ht]
    unfold calcUnwindRatio
    dsimp only
    rw [(by norm_num : ((max (1:ℤ) 5 : ℤ) : ℚ) = (5:ℚ))]
    rw [← hp]
    by_cases h1 : p ≤ 0
    · rw [if_pos h1, if_pos h1]
    · rw [if_neg h1, if_neg h1]
      have hp0 : 0 < p := not_le.mp h1
      have hd : 0 < p * 5 := by positivity
      by_cases h2 : p - rp ≤ 0
      · rw [if_pos h2]
        have hq : (p - rp) / (p * 5) ≤ 0 := div_nonpos_of_nonpos_of_nonneg h2 hd.le
        rw [min_eq_right (le_trans hq (by norm_num)), max_eq_left hq]
      · rw [if_neg h2]
        have hq : 0 < (p - rp) / (p * 5) := div_pos (by linarith) hd
        rw [if_neg (not_le.mpr hq),
          max_eq_right (le_min (by norm_num) hq.le), min_comm]
  constructor
  · unfold appliedUnwindRatio
    dsimp only
    rw [hcalc]
  · intro hup
    unfold appliedUnwindRatio
    dsimp only
    rw [if_pos hup]
    exact min_le_right _ _

/-- C6 amended witness: at `eq1 = 100, mm1 = 60, eq2 = 100, mm2 = 10,
recovery_pct = 40, unwind_pct = 10` the applied ratio stays below the
operator cap `10/100`. -/
theorem c6_unwind_ratio_amended_witness :
    appliedUnwindRatio 100 60 100 10 40 10 ≤ 10 / 100 :=
  (c6_unwind_ratio_amended 100 60 100 10 40 10).2 (by norm_num)

/-! ### C2 -/

/-- C2: an unwind order payload is built only when the final reduce size is a
positive multiple of the instrument's effective size step (the larger of
`1/10^base_decimals` and `min_size` when `min_size > 0`), at least the
effective minimum size (hence at least `min_size`), and at most the
position's absolute current size rounded down to that step (hence at most
the absolute current size); whenever the clamping cannot yield such a size,
`_build_order_fixed_size` returns `none` and `execute_unwind_fixed_size`
places no order. -/
theorem c2_unwind_order_size_safe (cs fs : ℚ) (bd : ℤ) (ms : ℚ) :
    (∀ leg : OrderLegModel, buildOrderFixedSize cs fs bd ms = some leg →
      (∃ k : ℤ, leg.size = k * effectiveSizeStep bd ms) ∧
      0 < leg.size ∧
      effectiveMinSize bd ms ≤ leg.size ∧
      ms ≤ leg.size ∧
      leg.size ≤ roundDownToStep |cs| (effectiveSizeStep bd ms) ∧
      leg.size ≤ |cs|) ∧
    (∀ dryRun, unwindOrderPlaced cs fs bd ms dryRun = true →
      (buildOrderFixedSize cs fs bd ms).isSome = true) := by
  constructor
  · intro leg h
    unfold buildOrderFixedSize at h
    dsimp only at h
    rcases hfr : finalReduceSize cs fs bd ms with _ | r
    · rw [hfr] at h
      cases h
    · rw [hfr] at h
      dsimp only at h
      by_cases h0 : r ≤ 0
      · rw [if_pos h0] at h
        cases h
      · rw [if_neg h0] at h
        by_cases hcsz : ⌊r * (10 : ℚ) ^ bd⌋ ≤ 0
        · rw [if_pos hcsz] at h
          cases h
        · rw [if_neg hcsz] at h
          have hleg : leg.size = r := by
            cases h
            rfl
          obtain ⟨hmul, hle_mx, hdich⟩ := finalReduceSize_characterize cs fs bd ms r hfr
          have hpos : 0 < r := not_le.mp h0
          have hminle : effectiveMinSize bd ms ≤ r := by
            rcases hdich with h' | h'
            · exact h'
            · exact absurd h' (not_le.mpr hpos)
          refine ⟨by rw [hleg]; exact hmul, by rw [hleg]; exact hpos,
            by rw [hleg]; exact hminle, ?_, by rw [hleg]; exact hle_mx, ?_⟩
          · rw [hleg]
            exact le_trans (minSizeRaw_le_effectiveMinSize bd ms) hminle
          · rw [hleg]
            exact le_trans hle_mx
              (roundDownToStep_le_self _ _ (effectiveSizeStep_pos bd ms))
  · intro dryRun h
    unfold unwindOrderPlaced at h
    cases dryRun with
    | false => simpa using h
    | true => simp at h

/-- C2 witness: position size 10, requested size 3.7, `base_decimals = 1`,
`min_size = 0.5`: the built order has size 3.5, a positive multiple of the
effective step 0.5, at least `min_size` and at most the position size. -/
theorem c2_unwind_order_size_safe_witness :
    buildOrderFixedSize 10 (37/10) 1 (1/2) = some ⟨7/2, false⟩ ∧
    (0 < (7:ℚ)/2 ∧ (1:ℚ)/2 ≤ (⟨7/2, false⟩ : OrderLegModel).size ∧
      (⟨7/2, false⟩ : OrderLegModel).size ≤ |(10:ℚ)|) := by
  have hb : buildOrderFixedSize 10 (37/10) 1 (1/2) = some ⟨7/2, false⟩ := by
    unfold buildOrderFixedSize finalReduceSize effectiveSizeStep effectiveMinSize
      roundDownToStep
    norm_num
  have h := (c2_unwind_order_size_safe 10 (37/10) 1 (1/2)).1 ⟨7/2, false⟩ hb
  exact ⟨hb, h.2.1, h.2.2.2.1, h.2.2.2.2.2⟩

/-! ### C1 -/

/-- C1: past the zero-equity guard, when `|eq1 − eq2| > trigger` the source
is the account with the larger equity and the transfer amount is
`min(|delta|/2, src_avail, src_eq − 2·src_mm)`; `blocked_mm` is returned
exactly when `src_eq − 2·src_mm ≤ 0` (checked before the min),
`blocked_avail` exactly when that bound is positive but the min is ≤ 0, and
every executed (or failed) result carries that min as its amount, which is
positive. -/
theorem c1_rebalance_amount_and_blocks
    (eq1 mm1 avail1 eq2 mm2 avail2 trigger : ℚ) (flowOk : Bool)
    (r : RebalanceResult)
    (hr : r = rebalanceCore eq1 mm1 avail1 eq2 mm2 avail2 trigger flowOk)
    (h : trigger < |eq1 - eq2|) :
    let srcEq := if 0 < eq1 - eq2 then eq1 else eq2
    let srcMm := if 0 < eq1 - eq2 then mm1 else mm2
    let srcAvail := if 0 < eq1 - eq2 then avail1 else avail2
    let amt := min (|eq1 - eq2| / 2) (min srcAvail (srcEq - srcMm * 2))
    srcEq = max eq1 eq2 ∧
    (r.action = .blocked_mm ↔ srcEq - srcMm * 2 ≤ 0) ∧
    (r.action = .blocked_avail ↔ 0 < srcEq - srcMm * 2 ∧ amt ≤ 0) ∧
    ((r.action = .executed ∨ r.action = .failed) → r.amount = amt ∧ 0 < r.amount) ∧
    (r.action = .executed → 0 < r.amount) := by
  subst hr
  have hsrc : (if 0 < eq1 - eq2 then eq1 else eq2) = max eq1 eq2 := by
    by_cases hd : 0 < eq1 - eq2
    · rw [if_pos hd]
      exact (max_eq_left (by linarith)).symm
    · rw [if_neg hd]
      exact (max_eq_right (by linarith)).symm
  unfold rebalanceCore
  dsimp only
  rw [if_neg (not_le.mpr h)]
  by_cases hmm0 : (if 0 < eq1 - eq2 then eq1 else eq2) -
      (if 0 < eq1 - eq2 then mm1 else mm2) * 2 ≤ 0
  · rw [if_pos hmm0]
    refine ⟨hsrc, iff_of_true rfl hmm0, iff_of_false (by simp) ?_, ?_, ?_⟩
    · rintro ⟨h1, -⟩
      exact absurd hmm0 (not_le.mpr h1)
    · rintro (h' | h') <;> exact RebalanceAction.noConfusion h'
    · intro h'
      exact absurd h' (by simp)
  · rw [if_neg hmm0]
    by_cases hamt : min (|eq1 - eq2| / 2)
        (min (if 0 < eq1 - eq2 then avail1 else avail2)
          ((if 0 < eq1 - eq2 then eq1 else eq2) -
            (if 0 < eq1 - eq2 then mm1 else mm2) * 2)) ≤ 0
    · rw [if_pos hamt]
      refine ⟨hsrc, iff_of_false (by simp) hmm0,
        iff_of_true rfl ⟨not_le.mp hmm0, hamt⟩, ?_, ?_⟩
      · rintro (h' | h') <;> exact RebalanceAction.noConfusion h'
      · intro h'
        exact absurd h' (by simp)
    · rw [if_neg hamt]
      have hpos : 0 < min (|eq1 - eq2| / 2)
          (min (if 0 < eq1 - eq2 then avail1 else avail2)
            ((if 0 < eq1 - eq2 then eq1 else eq2) -
              (if 0 < eq1 - eq2 then mm1 else mm2) * 2)) := not_le.mp hamt
      cases flowOk with
      | true =>
        refine ⟨hsrc, iff_of_false (by simp) hmm0, iff_of_false (by simp) ?_,
          fun _ => ⟨rfl, hpos⟩, fun _ => hpos⟩
        rintro ⟨-, h2⟩
        exact absurd h2 (not_le.mpr hpos)
      | false =>
        refine ⟨hsrc, iff_of_false (by simp) hmm0, iff_of_false (by simp) ?_,
          fun _ => ⟨rfl, hpos⟩, fun h' => absurd h' (by simp)⟩
        rintro ⟨-, h2⟩
        exact absurd h2 (not_le.mpr hpos)

/-- C1 witness: trigger 2000, account A `{eq 12000, mm 100, avail 11000}`,
account B `{eq 8000, mm 100, avail 7500}`: the transfer executes with a
positive amount. -/
theorem c1_rebalance_amount_and_blocks_witness :
    0 < (rebalanceCore 12000 100 11000 8000 100 7500 2000 true).amount := by
  have h := c1_rebalance_amount_and_blocks 12000 100 11000 8000 100 7500 2000 true
    (rebalanceCore 12000 100 11000 8000 100 7500 2000 true) rfl (by norm_num)
  have ha : (rebalanceCore 12000 100 11000 8000 100 7500 2000 true).action =
      RebalanceAction.executed := by
    norm_num [rebalanceCore]
  exact h.2.2.2.2 ha

/-! ### C5 -/

/-- In the executed case, `rebalance_once` chose the larger-equity side as
source and a transfer amount that is positive and at most `|delta|/2`. -/
theorem rebalanceCore_executed_spec
    (eq1 mm1 avail1 eq2 mm2 avail2 trigger : ℚ) (flowOk : Bool)
    (hx : (rebalanceCore eq1 mm1 avail1 eq2 mm2 avail2 trigger flowOk).action =
      RebalanceAction.executed) :
    (rebalanceCore eq1 mm1 avail1 eq2 mm2 avail2 trigger flowOk).srcIsA =
      decide (0 < eq1 - eq2) ∧
    0 < (rebalanceCore eq1 mm1 avail1 eq2 mm2 avail2 trigger flowOk).amount ∧
    (rebalanceCore eq1 mm1 avail1 eq2 mm2 avail2 trigger flowOk).amount ≤
      |eq1 - eq2| / 2 := by
  unfold rebalanceCore at hx ⊢
  dsimp only at hx ⊢
  by_cases h1 : |eq1 - eq2| ≤ trigger
  · rw [if_pos h1] at hx
    exact absurd hx (by simp)
  · rw [if_neg h1] at hx ⊢
    by_cases h2 : (if 0 < eq1 - eq2 then eq1 else eq2) -
        (if 0 < eq1 - eq2 then mm1 else mm2) * 2 ≤ 0
    · rw [if_pos h2] at hx
      exact absurd hx (by simp)
    · rw [if_neg h2] at hx ⊢
      by_cases h3 : min (|eq1 - eq2| / 2)
          (min (if 0 < eq1 - eq2 then avail1 else avail2)
            ((if 0 < eq1 - eq2 then eq1 else eq2) -
              (if 0 < eq1 - eq2 then mm1 else mm2) * 2)) ≤ 0
      · rw [if_pos h3] at hx
        exact absurd hx (by simp)
      · rw [if_neg h3]
        exact ⟨rfl, not_le.mp h3, min_le_left _ _⟩

/-- C5: for every executed rebalance, modeling the post equities as source
minus the transferred amount and destination plus it, the equity gap does
not increase: `|post1 − post2| ≤ |eq1 − eq2|`. -/
theorem c5_symmetry_nonincreasing
    (eq1 mm1 avail1 eq2 mm2 avail2 trigger : ℚ) (flowOk : Bool)
    (hx : (rebalanceCore eq1 mm1 avail1 eq2 mm2 avail2 trigger flowOk).action =
      RebalanceAction.executed) :
    let r := rebalanceCore eq1 mm1 avail1 eq2 mm2 avail2 trigger flowOk
    let post1 := if r.srcIsA then eq1 - r.amount else eq1 + r.amount
    let post2 := if r.srcIsA then eq2 + r.amount else eq2 - r.amount
    |post1 - post2| ≤ |eq1 - eq2| := by
  obtain ⟨hsrc, hpos, hhalf⟩ :=
    rebalanceCore_executed_spec eq1 mm1 avail1 eq2 mm2 avail2 trigger flowOk hx
  dsimp only
  rw [hsrc]
  by_cases hd : 0 < eq1 - eq2
  · rw [if_pos (by rw [decide_eq_true_eq]; exact hd),
      if_pos (by rw [decide_eq_true_eq]; exact hd)]
    rw [abs_of_pos hd] at hhalf
    have he : eq1 - (rebalanceCore eq1 mm1 avail1 eq2 mm2 avail2 trigger flowOk).amount -
        (eq2 + (rebalanceCore eq1 mm1 avail1 eq2 mm2 avail2 trigger flowOk).amount) =
        (eq1 - eq2) -
          2 * (rebalanceCore eq1 mm1 avail1 eq2 mm2 avail2 trigger flowOk).amount := by
      ring
    rw [he, abs_of_pos hd, abs_of_nonneg (by linarith)]
    linarith
  · have hd' : eq1 - eq2 ≤ 0 := not_lt.mp hd
    rw [if_neg (by rw [decide_eq_true_eq]; exact hd),
      if_neg (by rw [decide_eq_true_eq]; exact hd)]
    rw [abs_of_nonpos hd'] at hhalf
    have he : eq1 + (rebalanceCore eq1 mm1 avail1 eq2 mm2 avail2 trigger flowOk).amount -
        (eq2 - (rebalanceCore eq1 mm1 avail1 eq2 mm2 avail2 trigger flowOk).amount) =
        (eq1 - eq2) +
          2 * (rebalanceCore eq1 mm1 avail1 eq2 mm2 avail2 trigger flowOk).amount := by
      ring
    rw [he, abs_of_nonpos (by linarith), abs_of_nonpos hd']
    linarith

/-- C5 witness: the executed transfer of the C1 scenario does not widen the
equity gap. -/
theorem c5_symmetry_nonincreasing_witness :
    (let r := rebalanceCore 12000 100 11000 8000 100 7500 2000 true
     let post1 := if r.srcIsA then 12000 - r.amount else 12000 + r.amount
     let post2 := if r.srcIsA then 8000 + r.amount else 8000 - r.amount
     |post1 - post2| ≤ |(12000 : ℚ) - 8000|) := by
  have ha : (rebalanceCore 12000 100 11000 8000 100 7500 2000 true).action =
      RebalanceAction.executed := by
    norm_num [rebalanceCore]
  exact c5_symmetry_nonincreasing 12000 100 11000 8000 100 7500 2000 true ha

/-! ### C8 -/

/-- C8 counterexample: with observations identical on both calls (A: eq 100,
mm 0, avail 50; B: eq 10, mm 0, avail 50; trigger 1; transfer flow
succeeding), the first call executes its transfer — and the second call on
the very same observations executes again instead of returning noop. -/
theorem c8_idempotence_counterexample :
    (rebalanceOnce ⟨100, 0, 50, 10, 0, 50⟩ 1 1 1 true).action =
      RebalanceAction.executed ∧
    (rebalanceOnce ⟨100, 0, 50, 10, 0, 50⟩ 1 1 1 true).action ≠
      RebalanceAction.noop := by
  have h : (rebalanceOnce ⟨100, 0, 50, 10, 0, 50⟩ 1 1 1 true).action =
      RebalanceAction.executed := by
    norm_num [rebalanceOnce, rebalanceCore]
  refine ⟨h, ?_⟩
  rw [h]
  simp

/-- C8 amended: calling `rebalance_once` twice with literally identical
observations repeats the transfer; noop on the second call holds only when
the second observations reflect the completed transfer.  Precisely: if the
first call executed with the uncapped amount `|eq1 − eq2|/2` and
`trigger ≥ 0`, then a second call whose equities are the post-transfer
equities (source reduced by the amount, destination increased by it, their
sum nonzero) returns noop for all margins, balances, re-read equities and
flow outcomes. -/
theorem c8_idempotence_amended
    (eq1 mm1 avail1 eq2 mm2 avail2 trigger : ℚ) (flowOk : Bool)
    (mm1' avail1' mm2' avail2' retryEq1 retryEq2 : ℚ) (flowOk' : Bool)
    (h0 : 0 ≤ trigger) (hsum : eq1 + eq2 ≠ 0)
    (hx : (rebalanceCore eq1 mm1 avail1 eq2 mm2 avail2 trigger flowOk).action =
      RebalanceAction.executed)
    (hfull : (rebalanceCore eq1 mm1 avail1 eq2 mm2 avail2 trigger flowOk).amount =
      |eq1 - eq2| / 2) :
    let r := rebalanceCore eq1 mm1 avail1 eq2 mm2 avail2 trigger flowOk
    let post1 := if r.srcIsA then eq1 - r.amount else eq1 + r.amount
    let post2 := if r.srcIsA then eq2 + r.amount else eq2 - r.amount
    (rebalanceOnce ⟨post1, mm1', avail1', post2, mm2', avail2'⟩
      retryEq1 retryEq2 trigger flowOk').action = RebalanceAction.noop := by
  obtain ⟨hsrc, hpos, hhalf⟩ :=
    rebalanceCore_executed_spec eq1 mm1 avail1 eq2 mm2 avail2 trigger flowOk hx
  dsimp only
  rw [hsrc]
  have hposts :
      (if decide (0 < eq1 - eq2) = true then
        eq1 - (rebalanceCore eq1 mm1 avail1 eq2 mm2 avail2 trigger flowOk).amount
      else eq1 + (rebalanceCore eq1 mm1 avail1 eq2 mm2 avail2 trigger flowOk).amount) =
        (eq1 + eq2) / 2 ∧
      (if decide (0 < eq1 - eq2) = true then
        eq2 + (rebalanceCore eq1 mm1 avail1 eq2 mm2 avail2 trigger flowOk).amount
      else eq2 - (rebalanceCore eq1 mm1 avail1 eq2 mm2 avail2 trigger flowOk).amount) =
        (eq1 + eq2) / 2 := by
    by_cases hd : 0 < eq1 - eq2
    · rw [if_pos (by rw [decide_eq_true_eq]; exact hd),
        if_pos (by rw [decide_eq_true_eq]; exact hd), hfull, abs_of_pos hd]
      constructor <;> ring
    · rw [if_neg (by rw [decide_eq_true_eq]; exact hd),
        if_neg (by rw [decide_eq_true_eq]; exact hd), hfull,
        abs_of_nonpos (not_lt.mp hd)]
      constructor <;> ring
  rw [hposts.1, hposts.2]
  have hhalfne : (eq1 + eq2) / 2 ≠ 0 := by
    intro hzero
    apply hsum
    have := div_eq_zero_iff.mp hzero
    rcases this with h' | h'
    · exact h'
    · norm_num at h'
  unfold rebalanceOnce
  dsimp only
  rw [if_neg (by rintro (h' | h') <;> exact hhalfne h')]
  unfold rebalanceCore
  dsimp only
  rw [if_pos (by rw [sub_self, abs_zero]; exact h0)]

/-- C8 amended witness: the C1 scenario's transfer is uncapped
(`amount = |delta|/2 = 2000`), and the follow-up call on the post-transfer
equities (10000 and 10000) is a noop. -/
theorem c8_idempotence_amended_witness :
    (let r := rebalanceCore 12000 100 11000 8000 100 7500 2000 true
     let post1 := if r.srcIsA then 12000 - r.amount else 12000 + r.amount
     let post2 := if r.srcIsA then 8000 + r.amount else 8000 - r.amount
     (rebalanceOnce ⟨post1, 100, 11000, post2, 100, 7500⟩
       1 1 2000 true).action = RebalanceAction.noop) := by
  have ha : (rebalanceCore 12000 100 11000 8000 100 7500 2000 true).action =
      RebalanceAction.executed := by
    norm_num [rebalanceCore]
  have hf : (rebalanceCore 12000 100 11000 8000 100 7500 2000 true).amount =
      |(12000 : ℚ) - 8000| / 2 := by
    norm_num [rebalanceCore]
  exact c8_idempotence_amended 12000 100 11000 8000 100 7500 2000 true
    100 11000 100 7500 1 1 true (by norm_num) (by norm_num) ha hf

/-! ### C9 -/

/-- C9 counterexample: observation A reads equity 0 and the re-read still
gives 0 for A while B re-reads 100 ≠ 0 — exactly one account is still zero —
yet the call returns `blocked_zero_equity` instead of proceeding. -/
theorem c9_zero_equity_guard_counterexample :
    (rebalanceOnce ⟨0, 1, 1, 100, 1, 1⟩ 0 100 5 true).action =
      RebalanceAction.blocked_zero_equity ∧
    ((0 : ℚ) = 0 ∧ (100 : ℚ) ≠ 0) := by
  constructor
  · norm_num [rebalanceOnce]
  · norm_num

/-- C9 amended: when either equity reads 0, the engine re-reads both; if
either re-read equity is still 0 the call returns `blocked_zero_equity` with
no transfer, dispatching the warning exactly when not both re-read equities
are 0; only when both re-read equities are nonzero does it proceed to the
normal decision on the re-read equities (keeping the original margins and
balances). -/
theorem c9_zero_equity_guard_amended (o : RebalanceObs)
    (r1 r2 trigger : ℚ) (flowOk : Bool) (hz : o.eq1 = 0 ∨ o.eq2 = 0) :
    ((r1 = 0 ∨ r2 = 0) →
      (rebalanceOnce o r1 r2 trigger flowOk).action =
        RebalanceAction.blocked_zero_equity ∧
      (rebalanceOnce o r1 r2 trigger flowOk).amount = 0 ∧
      ((rebalanceOnce o r1 r2 trigger flowOk).zeroEquityWarned = true ↔
        ¬(r1 = 0 ∧ r2 = 0))) ∧
    (¬(r1 = 0 ∨ r2 = 0) →
      rebalanceOnce o r1 r2 trigger flowOk =
        rebalanceCore r1 o.mm1 o.avail1 r2 o.mm2 o.avail2 trigger flowOk) := by
  unfold rebalanceOnce
  rw [if_pos hz]
  constructor
  · intro hr
    rw [if_pos hr]
    exact ⟨rfl, rfl, by simp [not_and_or, imp_iff_not_or]⟩
  · intro hr
    rw [if_neg hr]

/-- C9 amended witness: at the counterexample's observation the guard blocks
with amount 0 and dispatches the asymmetric warning. -/
theorem c9_zero_equity_guard_amended_witness :
    (rebalanceOnce ⟨0, 1, 1, 100, 1, 1⟩ 0 100 5 true).amount = 0 ∧
    (rebalanceOnce ⟨0, 1, 1, 100, 1, 1⟩ 0 100 5 true).zeroEquityWarned = true := by
  have h := (c9_zero_equity_guard_amended ⟨0, 1, 1, 100, 1, 1⟩ 0 100 5 true
    (Or.inl rfl)).1 (Or.inl rfl)
  exact ⟨h.2.1, h.2.2.mpr (by norm_num)⟩

/-! ### C7 -/

/-- The retry loop invariant of `try_transfer`: attempts stay within the
budget, the returned outcome is the final attempt's, every earlier attempt
was a retryable failure, and the sleeps are the successive backoffs. -/
theorem tryTransferGo_spec (outs : ℕ → AttemptOutcome) :
    ∀ (remaining attempt backoff : ℕ),
      (attempt + 1 ≤ (tryTransferGo outs attempt backoff remaining).attempts ∧
        (tryTransferGo outs attempt backoff remaining).attempts ≤
          attempt + remaining + 1) ∧
      (tryTransferGo outs attempt backoff remaining).final =
        outs ((tryTransferGo outs attempt backoff remaining).attempts - 1) ∧
      (tryTransferGo outs attempt backoff remaining).ok =
        isSuccessOutcome
          (outs ((tryTransferGo outs attempt backoff remaining).attempts - 1)) ∧
      (∀ i, attempt ≤ i →
        i + 1 < (tryTransferGo outs attempt backoff remaining).attempts →
        retryableOutcome (outs i) = true ∧ isSuccessOutcome (outs i) = false) ∧
      (tryTransferGo outs attempt backoff remaining).sleeps =
        sleepsList backoff
          ((tryTransferGo outs attempt backoff remaining).attempts - 1 - attempt) ∧
      ((tryTransferGo outs attempt backoff remaining).attempts <
          attempt + remaining + 1 →
        isSuccessOutcome
            (outs ((tryTransferGo outs attempt backoff remaining).attempts - 1)) = true ∨
        retryableOutcome
            (outs ((tryTransferGo outs attempt backoff remaining).attempts - 1)) = false) := by
  intro remaining
  induction remaining with
  | zero =>
    intro attempt backoff
    simp only [tryTransferGo]
    refine ⟨⟨le_refl _, by omega⟩, by simp, by simp, ?_, by simp [sleepsList],
      fun hc => absurd hc (by omega)⟩
    intro i hle hlt
    exact absurd hlt (by omega)
  | succ n ih =>
    intro attempt backoff
    cases h0 : outs attempt with
    | success a =>
      simp only [tryTransferGo, h0]
      refine ⟨⟨le_refl _, by omega⟩, by simp [h0], by simp [h0, isSuccessOutcome],
        ?_, by simp [sleepsList], fun _ => Or.inl (by simp [h0, isSuccessOutcome])⟩
      intro i hle hlt
      exact absurd hlt (by omega)
    | transportExn =>
      simp only [tryTransferGo, h0]
      obtain ⟨⟨hlo, hhi⟩, hfin, hok, hretry, hsleep, hterm⟩ :=
        ih (attempt + 1) (backoff * 3 / 2)
      refine ⟨⟨by omega, by omega⟩, hfin, hok, ?_, ?_, fun hc => hterm (by omega)⟩
      · intro i hle hlt
        rcases Nat.eq_or_lt_of_le hle with heq | hlt'
        · subst heq
          exact ⟨by simp [h0, retryableOutcome], by simp [h0, isSuccessOutcome]⟩
        · exact hretry i hlt' hlt
      · rw [hsleep]
        have hk : (tryTransferGo outs (attempt + 1) (backoff * 3 / 2) n).attempts - 1 -
            attempt =
            ((tryTransferGo outs (attempt + 1) (backoff * 3 / 2) n).attempts - 1 -
              (attempt + 1)) + 1 := by omega
        rw [hk, sleepsList]
    | businessErr c s =>
      by_cases hr : retryableOutcome (.businessErr c s) = true
      · simp only [tryTransferGo, h0, if_pos hr]
        obtain ⟨⟨hlo, hhi⟩, hfin, hok, hretry, hsleep, hterm⟩ :=
          ih (attempt + 1) (backoff * 3 / 2)
        refine ⟨⟨by omega, by omega⟩, hfin, hok, ?_, ?_, fun hc => hterm (by omega)⟩
        · intro i hle hlt
          rcases Nat.eq_or_lt_of_le hle with heq | hlt'
          · subst heq
            exact ⟨by rw [h0]; exact hr, by simp [h0, isSuccessOutcome]⟩
          · exact hretry i hlt' hlt
        · rw [hsleep]
          have hk : (tryTransferGo outs (attempt + 1) (backoff * 3 / 2) n).attempts - 1 -
              attempt =
              ((tryTransferGo outs (attempt + 1) (backoff * 3 / 2) n).attempts - 1 -
                (attempt + 1)) + 1 := by omega
          rw [hk, sleepsList]
      · simp only [tryTransferGo, h0, if_neg hr]
        refine ⟨⟨le_refl _, by omega⟩, by simp [h0], by simp [h0, isSuccessOutcome],
          ?_, by simp [sleepsList],
          fun _ => Or.inr (by
            simp only [Nat.add_sub_cancel, h0]
            exact Bool.eq_false_iff.mpr (fun hb => hr hb))⟩
        intro i hle hlt
        exact absurd hlt (by omega)

/-- C7: `try_transfer` with its defaults makes at most 3 attempts; the
sleeps performed are the successive backoffs 1500 ms then 2250 ms, one per
retry; an attempt is followed by another exactly when it raised a transport
exception or the business error carries code 1006 or status 429; the
function returns the final attempt's outcome without raising, succeeding iff
that outcome is a successful response. -/
theorem c7_try_transfer_retry_policy (outs : ℕ → AttemptOutcome) :
    (1 ≤ (tryTransfer outs 2 1500).attempts ∧
      (tryTransfer outs 2 1500).attempts ≤ 3) ∧
    (tryTransfer outs 2 1500).sleeps =
      List.take ((tryTransfer outs 2 1500).attempts - 1) [1500, 2250] ∧
    (∀ i, i + 1 < (tryTransfer outs 2 1500).attempts →
      retryableOutcome (outs i) = true ∧ isSuccessOutcome (outs i) = false) ∧
    (tryTransfer outs 2 1500).final =
      outs ((tryTransfer outs 2 1500).attempts - 1) ∧
    (tryTransfer outs 2 1500).ok =
      isSuccessOutcome (outs ((tryTransfer outs 2 1500).attempts - 1)) ∧
    ((tryTransfer outs 2 1500).attempts < 3 →
      isSuccessOutcome (outs ((tryTransfer outs 2 1500).attempts - 1)) = true ∨
      retryableOutcome (outs ((tryTransfer outs 2 1500).attempts - 1)) = false) := by
  obtain ⟨⟨hlo, hhi⟩, hfin, hok, hretry, hsleep, hterm⟩ :=
    tryTransferGo_spec outs 2 0 1500
  unfold tryTransfer
  refine ⟨⟨hlo, by omega⟩, ?_, fun i hi => hretry i (Nat.zero_le i) hi, hfin, hok,
    fun hc => hterm (by omega)⟩
  rw [hsleep]
  have hc : (tryTransferGo outs 0 1500 2).attempts - 1 - 0 =
      (tryTransferGo outs 0 1500 2).attempts - 1 := by omega
  rw [hc]
  have h3 : (tryTransferGo outs 0 1500 2).attempts - 1 = 0 ∨
      (tryTransferGo outs 0 1500 2).attempts - 1 = 1 ∨
      (tryTransferGo outs 0 1500 2).attempts - 1 = 2 := by omega
  rcases h3 with h | h | h <;> rw [h] <;> rfl

/-- C7 witness: when every attempt raises a transport exception, the first
attempt is retryable and the sleeps performed are exactly 1500 ms then
2250 ms. -/
theorem c7_try_transfer_retry_policy_witness :
    retryableOutcome ((fun _ => AttemptOutcome.transportExn) 0) = true ∧
    (tryTransfer (fun _ => AttemptOutcome.transportExn) 2 1500).sleeps =
      [1500, 2250] := by
  have h := c7_try_transfer_retry_policy (fun _ => AttemptOutcome.transportExn)
  have ha : (tryTransfer (fun _ => AttemptOutcome.transportExn) 2 1500).attempts = 3 := rfl
  refine ⟨(h.2.2.1 0 (by rw [ha]; omega)).1, ?_⟩
  rw [h.2.1, ha]
  rfl

/-! ### C4 -/

/-- C4: `TransferFlow.execute` performs the three hops strictly in order;
a hop that fails (after its retries, inside `try_transfer`) makes the flow
return failure carrying that hop's error info, with no later hop attempted
and nothing rolled back (exactly the first `hopsAttempted = h` hops ran);
and the rebalance event's `success_all` flag is true iff all three hop
results carry `ack = true`. -/
theorem c4_transfer_flow_hops (outs1 outs2 outs3 : ℕ → AttemptOutcome) :
    ((tryTransfer outs1 2 1500).ok = false →
      transferFlowExecute outs1 outs2 outs3 =
        ⟨false, .hopError 1 (tryTransfer outs1 2 1500).final, 1⟩) ∧
    ((tryTransfer outs1 2 1500).ok = true →
      (tryTransfer outs2 2 1500).ok = false →
      transferFlowExecute outs1 outs2 outs3 =
        ⟨false, .hopError 2 (tryTransfer outs2 2 1500).final, 2⟩) ∧
    ((tryTransfer outs1 2 1500).ok = true →
      (tryTransfer outs2 2 1500).ok = true →
      (tryTransfer outs3 2 1500).ok = false →
      transferFlowExecute outs1 outs2 outs3 =
        ⟨false, .hopError 3 (tryTransfer outs3 2 1500).final, 3⟩) ∧
    ((tryTransfer outs1 2 1500).ok = true →
      (tryTransfer outs2 2 1500).ok = true →
      (tryTransfer outs3 2 1500).ok = true →
      transferFlowExecute outs1 outs2 outs3 =
        ⟨true, .complete (ackOf (tryTransfer outs1 2 1500).final)
          (ackOf (tryTransfer outs2 2 1500).final)
          (ackOf (tryTransfer outs3 2 1500).final), 3⟩) ∧
    ((transferFlowExecute outs1 outs2 outs3).ok = false →
      ∃ h d, (transferFlowExecute outs1 outs2 outs3).info = .hopError h d ∧
        (transferFlowExecute outs1 outs2 outs3).hopsAttempted = h ∧ h ≤ 3) ∧
    (successAll (transferFlowExecute outs1 outs2 outs3).info = true ↔
      ((tryTransfer outs1 2 1500).ok = true ∧
       (tryTransfer outs2 2 1500).ok = true ∧
       (tryTransfer outs3 2 1500).ok = true ∧
       ackOf (tryTransfer outs1 2 1500).final = true ∧
       ackOf (tryTransfer outs2 2 1500).final = true ∧
       ackOf (tryTransfer outs3 2 1500).final = true)) := by
  unfold transferFlowExecute
  dsimp only
  by_cases h1 : (tryTransfer outs1 2 1500).ok = true
  · rw [if_pos h1]
    by_cases h2 : (tryTransfer outs2 2 1500).ok = true
    · rw [if_pos h2]
      by_cases h3 : (tryTransfer outs3 2 1500).ok = true
      · rw [if_pos h3]
        refine ⟨fun hf => by simp [hf] at h1, fun _ hf => by simp [hf] at h2,
          fun _ _ hf => by simp [hf] at h3, fun _ _ _ => rfl, ?_, ?_⟩
        · intro hko
          exact absurd hko (by simp)
        · simp only [successAll, txSuccess]
          constructor
          · intro hs
            simp only [Bool.and_eq_true] at hs
            norm_num at hs
            exact ⟨h1, h2, h3, hs.1.1, hs.1.2, hs.2⟩
          · rintro ⟨-, -, -, ha1, ha2, ha3⟩
            norm_num [ha1, ha2, ha3]
      · rw [if_neg h3]
        have h3f : (tryTransfer outs3 2 1500).ok = false := by
          revert h3
          cases (tryTransfer outs3 2 1500).ok <;> simp
        refine ⟨fun hf => by simp [hf] at h1, fun _ hf => by simp [hf] at h2,
          fun _ _ _ => rfl, fun _ _ ht => absurd ht h3, ?_, ?_⟩
        · intro _
          exact ⟨3, (tryTransfer outs3 2 1500).final, rfl, rfl, by omega⟩
        · constructor
          · intro hs
            exact absurd hs (by simp [successAll, txSuccess])
          · rintro ⟨-, -, ht, -⟩
            exact absurd ht h3
    · rw [if_neg h2]
      refine ⟨fun hf => by simp [hf] at h1, fun _ _ => rfl,
        fun _ ht => absurd ht h2, fun _ ht => absurd ht h2, ?_, ?_⟩
      · intro _
        exact ⟨2, (tryTransfer outs2 2 1500).final, rfl, rfl, by omega⟩
      · constructor
        · intro hs
          exact absurd hs (by simp [successAll, txSuccess])
        · rintro ⟨-, ht, -⟩
          exact absurd ht h2
  · rw [if_neg h1]
    refine ⟨fun _ => rfl, fun ht => absurd ht h1, fun ht => absurd ht h1,
      fun ht => absurd ht h1, ?_, ?_⟩
    · intro _
      exact ⟨1, (tryTransfer outs1 2 1500).final, rfl, rfl, by omega⟩
    · constructor
      · intro hs
        exact absurd hs (by simp [successAll, txSuccess])
      · rintro ⟨ht, -⟩
        exact absurd ht h1

/-- C4 witness: when every hop's first attempt succeeds with `ack = true`,
the overall success flag is true. -/
theorem c4_transfer_flow_hops_witness :
    successAll (transferFlowExecute (fun _ => AttemptOutcome.success true)
      (fun _ => AttemptOutcome.success true)
      (fun _ => AttemptOutcome.success true)).info = true := by
  have h := c4_transfer_flow_hops (fun _ => AttemptOutcome.success true)
    (fun _ => AttemptOutcome.success true) (fun _ => AttemptOutcome.success true)
  exact (h.2.2.2.2.2).mpr ⟨rfl, rfl, rfl, rfl, rfl, rfl⟩

/-! ### C10 -/

/-- C10: `set_unwind_progress` always stores the given `in_progress` and a
fresh `updated_ts`, while `iteration`, `pct_a`, `pct_b`, `trigger_pct` and
`recovery_pct` keep their stored values exactly when the corresponding
argument is None and take the argument's value otherwise; and
`get_unwind_progress` hands out a fresh copy, so writing into the returned
dict leaves the stored record unchanged. -/
theorem c10_unwind_progress_frame (T : Type) [Inhabited T]
    (st : UnwindProgress T) (b : Bool) (it : Option ℤ)
    (pa pb tp rp : Option T) (now : ℚ)
    (cells : List (UnwindProgress T)) (storeAddr : ℕ) (v : UnwindProgress T)
    (haddr : storeAddr < cells.length) :
    (setUnwindProgress st b it pa pb tp rp now).inProgress = b ∧
    (setUnwindProgress st b it pa pb tp rp now).updatedTs = some now ∧
    ((it = none → (setUnwindProgress st b it pa pb tp rp now).iteration = st.iteration) ∧
      (it ≠ none → (setUnwindProgress st b it pa pb tp rp now).iteration = it)) ∧
    ((pa = none → (setUnwindProgress st b it pa pb tp rp now).pctA = st.pctA) ∧
      (pa ≠ none → (setUnwindProgress st b it pa pb tp rp now).pctA = pa)) ∧
    ((pb = none → (setUnwindProgress st b it pa pb tp rp now).pctB = st.pctB) ∧
      (pb ≠ none → (setUnwindProgress st b it pa pb tp rp now).pctB = pb)) ∧
    ((tp = none → (setUnwindProgress st b it pa pb tp rp now).triggerPct = st.triggerPct) ∧
      (tp ≠ none → (setUnwindProgress st b it pa pb tp rp now).triggerPct = tp)) ∧
    ((rp = none → (setUnwindProgress st b it pa pb tp rp now).recoveryPct = st.recoveryPct) ∧
      (rp ≠ none → (setUnwindProgress st b it pa pb tp rp now).recoveryPct = rp)) ∧
    (writeCell (getUnwindProgressCopy cells storeAddr).1
        (getUnwindProgressCopy cells storeAddr).2 v).getD storeAddr default =
      cells.getD storeAddr default := by
  refine ⟨rfl, rfl, ?_, ?_, ?_, ?_, ?_, ?_⟩
  · cases it <;> simp [setUnwindProgress]
  · cases pa <;> simp [setUnwindProgress]
  · cases pb <;> simp [setUnwindProgress]
  · cases tp <;> simp [setUnwindProgress]
  · cases rp <;> simp [setUnwindProgress]
  · rw [writeCell, getUnwindProgressCopy]
    rw [List.getD_eq_getElem?_getD, List.getD_eq_getElem?_getD]
    rw [List.getElem?_set_ne (by omega)]
    rw [List.getElem?_append, if_pos haddr]

/-- C10 witness: a concrete update over `T = ℤ` keeps the None-argument
fields, overwrites the given ones, refreshes the timestamp, and a write into
the copied dict leaves the stored cell untouched. -/
theorem c10_unwind_progress_frame_witness :
    (setUnwindProgress (⟨false, some 1, some 2, none, none, none, some 9⟩ :
        UnwindProgress ℤ) true (some 3) none (some 7) none none 5).iteration = some 3 ∧
    (setUnwindProgress (⟨false, some 1, some 2, none, none, none, some 9⟩ :
        UnwindProgress ℤ) true (some 3) none (some 7) none none 5).pctA = some 2 ∧
    (setUnwindProgress (⟨false, some 1, some 2, none, none, none, some 9⟩ :
        UnwindProgress ℤ) true (some 3) none (some 7) none none 5).updatedTs = some 5 ∧
    (writeCell (getUnwindProgressCopy
        [(⟨false, some 1, some 2, none, none, none, some 9⟩ : UnwindProgress ℤ)] 0).1
        (getUnwindProgressCopy
        [(⟨false, some 1, some 2, none, none, none, some 9⟩ : UnwindProgress ℤ)] 0).2
        ⟨true, none, none, none, none, none, none⟩).getD 0 default =
      [(⟨false, some 1, some 2, none, none, none, some 9⟩ : UnwindProgress ℤ)].getD 0
        default := by
  have h := c10_unwind_progress_frame ℤ
    ⟨false, some 1, some 2, none, none, none, some 9⟩ true (some 3) none (some 7)
    none none 5 [⟨false, some 1, some 2, none, none, none, some 9⟩] 0
    ⟨true, none, none, none, none, none, none⟩ (by norm_num)
  exact ⟨h.2.2.1.2 (by simp), h.2.2.2.1.1 rfl, h.2.1, h.2.2.2.2.2.2.2⟩

end GrvtTransfer
